import Mathlib

/-!
# Policy-list algebra of `policies.cpp`

The source manipulates C++ types with partial template specialisations.  The
embedding represents the types the metafunctions can be instantiated with as a
small term language and every metafunction as a function returning `Option`:
`none` stands for "no partial specialisation matches" (the primary templates are
declared but never defined, so such an instantiation has no member `type`).

* `α` is the set of policy templates (`template <typename...> typename`),
  compared by identity of the template;
* `τ` is the set of object templates
  (`template <template <typename...> typename...> typename`), such as `cls`.
-/

namespace VariadicFriendPolicy

/-- The types the metafunctions are instantiated with. -/
inductive Ty (τ α : Type) where
  /-- A type that is not a template specialisation, such as `int`. -/
  | plain : Nat → Ty τ α
  /-- The type `Policy<PolicyArgs...>`: a policy template applied to type arguments. -/
  | inst : α → List (Ty τ α) → Ty τ α
  /-- The type `T<Policies...>`: an object template applied to a pack of policy templates. -/
  | obj : τ → List α → Ty τ α

variable {τ α : Type}

mutual
/-- Equality of types is decidable: two types are the same when they are built
the same way from the same templates and arguments. -/
def Ty.decEq [DecidableEq τ] [DecidableEq α] : (a b : Ty τ α) → Decidable (a = b)
  | Ty.plain m, Ty.plain n =>
      if h : m = n then isTrue (by rw [h]) else isFalse (fun c => h (Ty.plain.inj c))
  | Ty.inst P as, Ty.inst Q bs =>
      if h : P = Q then
        match Ty.decEqList as bs with
        | isTrue e => isTrue (by rw [h, e])
        | isFalse e => isFalse (fun c => e (Ty.inst.inj c).2)
      else isFalse (fun c => h (Ty.inst.inj c).1)
  | Ty.obj T Ps, Ty.obj U Qs =>
      if h : T = U ∧ Ps = Qs then isTrue (by rw [h.1, h.2])
      else isFalse (fun c => h (Ty.obj.inj c))
  | Ty.plain _, Ty.inst _ _ => isFalse (fun c => Ty.noConfusion c)
  | Ty.plain _, Ty.obj _ _ => isFalse (fun c => Ty.noConfusion c)
  | Ty.inst _ _, Ty.plain _ => isFalse (fun c => Ty.noConfusion c)
  | Ty.inst _ _, Ty.obj _ _ => isFalse (fun c => Ty.noConfusion c)
  | Ty.obj _ _, Ty.plain _ => isFalse (fun c => Ty.noConfusion c)
  | Ty.obj _ _, Ty.inst _ _ => isFalse (fun c => Ty.noConfusion c)
/-- Equality of lists of types, decided element by element. -/
def Ty.decEqList [DecidableEq τ] [DecidableEq α] :
    (as bs : List (Ty τ α)) → Decidable (as = bs)
  | [], [] => isTrue rfl
  | [], _ :: _ => isFalse (fun c => List.noConfusion c)
  | _ :: _, [] => isFalse (fun c => List.noConfusion c)
  | a :: as, b :: bs =>
      match Ty.decEq a b with
      | isTrue e =>
          match Ty.decEqList as bs with
          | isTrue es => isTrue (by rw [e, es])
          | isFalse es => isFalse (fun c => es (List.cons.inj c).2)
      | isFalse e => isFalse (fun c => e (List.cons.inj c).1)
end

instance [DecidableEq τ] [DecidableEq α] : DecidableEq (Ty τ α) := Ty.decEq

/-- The metafunction `first_policy<Policies...>::type` (lines 5-26): its only
specialisation matches a pack whose first type has the form `Policy<PolicyArgs...>`
and yields that type. -/
def first_policy : List (Ty τ α) → Option (Ty τ α)
  | Ty.inst Policy PolicyArgs :: _ => some (Ty.inst Policy PolicyArgs)
  | _ => none

/-- The metafunction `append<A, B>::type` (lines 28-80) with its three
specialisations, in source order: policy and object, object and policy, and two
objects of the same template `T`. -/
def append [DecidableEq τ] : Ty τ α → Ty τ α → Option (Ty τ α)
  | Ty.inst Policy _, Ty.obj T Policies => some (Ty.obj T (Policy :: Policies))
  | Ty.obj T Policies, Ty.inst Policy _ => some (Ty.obj T (Policies ++ [Policy]))
  | Ty.obj T FirstPoliciesList, Ty.obj T2 SecondPoliciesList =>
      if T = T2 then some (Ty.obj T (FirstPoliciesList ++ SecondPoliciesList)) else none
  | _, _ => none

/-- The pack recursion of `erase<Policy<PolicyArgs...>, T<...>>` (lines 82-132).
For a non-empty pack whose head is `Policy` the head-match specialisation is the
most specialised one and yields the remaining pack; for any other non-empty pack
the recursive specialisation is more specialised than the catch-all and appends
the erased tail to `T<FirstPolicy>`; the empty pack is matched by the catch-all
only, which yields the pack unchanged. -/
def eraseFrom [DecidableEq τ] [DecidableEq α] (Policy : α) (PolicyArgs : List (Ty τ α))
    (T : τ) : List α → Option (Ty τ α)
  | [] => some (Ty.obj T [])
  | FirstPolicy :: Policies =>
      if FirstPolicy = Policy then some (Ty.obj T Policies)
      else
        match eraseFrom Policy PolicyArgs T Policies with
        | some erased => append (Ty.obj T [FirstPolicy]) erased
        | none => none

/-- The metafunction `erase<A, B>::type` (lines 82-141): every specialisation asks
for a policy instantiation as first argument and an object type as second. -/
def erase [DecidableEq τ] [DecidableEq α] : Ty τ α → Ty τ α → Option (Ty τ α)
  | Ty.inst Policy PolicyArgs, Ty.obj T Policies => eraseFrom Policy PolicyArgs T Policies
  | _, _ => none

/-- The metafunction `reorder_as_first_policy<A>::type` (lines 143-167): the
argument must be `Policy<T<Policies...>>`, and the result is `Policy` applied to
`append_t<Policy<T<Policies...>>, erase_t<Policy<T<Policies...>>, T<Policies...>>>`. -/
def reorder_as_first_policy [DecidableEq τ] [DecidableEq α] : Ty τ α → Option (Ty τ α)
  | Ty.inst Policy [Ty.obj T Policies] =>
      match erase (Ty.inst Policy [Ty.obj T Policies]) (Ty.obj T Policies) with
      | some erased =>
          match append (Ty.inst Policy [Ty.obj T Policies]) erased with
          | some appended => some (Ty.inst Policy [appended])
          | none => none
      | none => none
  | _ => none

/-- Reference for `erase`, written from the words of the specification ("removes
the first occurrence of `policy` from `list`, preserving relative order of
remaining elements"): the position of the first occurrence of `P` is deleted, and
a list without `P` has no such position and stays as it is. -/
def remove_first_occurrence [DecidableEq α] (P : α) (L : List α) : List α :=
  L.eraseIdx (L.indexOf P)

/-- A policy list handed to `first_policy`: every entry is a policy template
together with the type arguments it is instantiated with. -/
def instantiate (L : List (α × List (Ty τ α))) : List (Ty τ α) :=
  L.map (fun p => Ty.inst p.1 p.2)

/-- The base-specifier list of `cls<Policies...>` (line 173), in declaration
order: the pack expansion `reorder_as_first_policy_t<Policies<cls<Policies...>>>...`
gives, for each policy of the pack, `reorder_as_first_policy` of that policy
instantiated with `cls<Policies...>`.  `self` is the template `cls` itself.
Whether these specifiers make a class is decided by `cls` below. -/
def cls_bases [DecidableEq τ] [DecidableEq α] (self : τ) (Policies : List α) :
    List (Option (Ty τ α)) :=
  Policies.map (fun Policy => reorder_as_first_policy (Ty.inst Policy [Ty.obj self Policies]))

/-- The friend declared by `cls<Policies...>` (line 176):
`first_policy_t<Policies<cls<Policies...>>...>`, the first policy of the declared
pack instantiated with `cls<Policies...>`. -/
def cls_friend (self : τ) (Policies : List α) : Option (Ty τ α) :=
  first_policy (Policies.map (fun Policy => Ty.inst Policy [Ty.obj self Policies]))

/-- What the declaration of `cls<Policies...>` (lines 172-180) fixes about the
class at the level of types: its direct base classes, in declaration order, and
the type it declares as friend. -/
structure ClsDecl (τ α : Type) where
  bases : List (Ty τ α)
  friend_type : Ty τ α

/-- The types named by a list of base specifiers, when every one of them names a
type; `none` as soon as one does not. -/
def base_types {β : Type} : List (Option β) → Option (List β)
  | [] => some []
  | none :: _ => none
  | some b :: bs =>
      match base_types bs with
      | some r => some (b :: r)
      | none => none

/-- The class `cls<Policies...>` (lines 172-180).  The instantiation is ill-formed,
`none`, when a base specifier names no type, when the friend declaration names no
type (the empty pack), or when the same type is named more than once as a direct
base class, which the language does not allow; otherwise the class has the bases of
`cls_bases` and the friend of `cls_friend`. -/
def cls [DecidableEq τ] [DecidableEq α] (self : τ) (Policies : List α) :
    Option (ClsDecl τ α) :=
  match base_types (cls_bases self Policies), cls_friend self Policies with
  | some bases, some friend_type =>
      if bases.Nodup then some (ClsDecl.mk bases friend_type) else none
  | _, _ => none

/-- Least value of `int`, taken 32 bits wide in two's complement. -/
def INT_MIN : Int := -2147483648

/-- Greatest value of `int`, taken 32 bits wide in two's complement. -/
def INT_MAX : Int := 2147483647

/-- The state of an object of `cls<Policies...>` (lines 174-179): the private
field `int x`, set by the constructor `cls(int x)`. -/
structure Cls where
  x : Int
  deriving DecidableEq

/-- The member `ArithmeticPolicy<T>::operator+=(int val)` (line 205),
`static_cast<T*>(this)->x += val`, the cast being taken to reach the composed
object the policy is a base of.  A sum outside the range of `int` is signed
overflow, which has no defined result: `none`. -/
def ArithmeticPolicy.add_assign (self : Cls) (val : Int) : Option Cls :=
  if INT_MIN ≤ self.x + val ∧ self.x + val ≤ INT_MAX then some (Cls.mk (self.x + val))
  else none

/-- The member `ComparisonPolicy<T>::operator==(int val)` (line 218),
`static_cast<const T*>(this)->x == val`, the cast being taken to reach the
composed object the policy is a base of. -/
def ComparisonPolicy.eq (self : Cls) (val : Int) : Bool :=
  decide (self.x = val)

/-! ## Auxiliary lemmas -/

theorem cls_friend_cons (self : τ) (P : α) (R : List α) :
    cls_friend self (P :: R) = some (Ty.inst P [Ty.obj self (P :: R)]) := rfl

theorem nodup_map_inst_iff [DecidableEq α] (self : τ) (L : List α) :
    (L.map (fun Q => Ty.inst Q [Ty.obj self (Q :: remove_first_occurrence Q L)])).Nodup
      ↔ L.Nodup := by
  refine ⟨List.Nodup.of_map _, fun h => h.map ?_⟩
  intro Q Q2 e
  exact (Ty.inst.inj e).1

section Lemmas

variable [DecidableEq τ] [DecidableEq α]

theorem remove_first_occurrence_nil (P : α) : remove_first_occurrence P [] = [] := rfl

theorem remove_first_occurrence_cons_self (P : α) (L : List α) :
    remove_first_occurrence P (P :: L) = L := by
  simp [remove_first_occurrence]

theorem remove_first_occurrence_cons_ne {P F : α} (L : List α) (h : F ≠ P) :
    remove_first_occurrence P (F :: L) = F :: remove_first_occurrence P L := by
  simp [remove_first_occurrence, List.indexOf_cons_ne L h]

theorem remove_first_occurrence_eq_erase (P : α) (L : List α) :
    remove_first_occurrence P L = L.erase P := by
  induction L with
  | nil => rfl
  | cons F Ps ih =>
    by_cases h : F = P
    · subst h
      rw [remove_first_occurrence_cons_self, List.erase_cons_head]
    · rw [remove_first_occurrence_cons_ne Ps h, ih, List.erase_cons_tail (by simpa using h)]

theorem eraseFrom_eq (P : α) (args : List (Ty τ α)) (T : τ) (L : List α) :
    eraseFrom P args T L = some (Ty.obj T (remove_first_occurrence P L)) := by
  induction L with
  | nil => rfl
  | cons F Ps ih =>
    by_cases h : F = P
    · subst h
      simp [eraseFrom, remove_first_occurrence_cons_self]
    · simp [eraseFrom, h, ih, append, remove_first_occurrence_cons_ne Ps h]

theorem erase_eq (P : α) (args : List (Ty τ α)) (T : τ) (L : List α) :
    erase (Ty.inst P args) (Ty.obj T L) = some (Ty.obj T (remove_first_occurrence P L)) := by
  simp [erase, eraseFrom_eq]

theorem reorder_as_first_policy_eq (P : α) (T : τ) (L : List α) :
    reorder_as_first_policy (Ty.inst P [Ty.obj T L])
      = some (Ty.inst P [Ty.obj T (P :: remove_first_occurrence P L)]) := by
  simp [reorder_as_first_policy, erase_eq, append]

theorem remove_first_occurrence_of_not_mem {P : α} {L : List α} (h : P ∉ L) :
    remove_first_occurrence P L = L := by
  rw [remove_first_occurrence_eq_erase, List.erase_of_not_mem h]

theorem remove_first_occurrence_append_cons {P : α} (A B : List α) (h : P ∉ A) :
    remove_first_occurrence P (A ++ P :: B) = A ++ B := by
  induction A with
  | nil => exact remove_first_occurrence_cons_self P B
  | cons F Ps ih =>
    have hF : F ≠ P := fun e => h (by simp [e])
    have hPs : P ∉ Ps := fun m => h (List.mem_cons_of_mem F m)
    rw [List.cons_append, remove_first_occurrence_cons_ne _ hF, ih hPs, List.cons_append]

theorem not_mem_filter_ne (P : α) (A : List α) : P ∉ A.filter (fun Q => decide (Q ≠ P)) := by
  simp [List.mem_filter]

theorem base_types_map_some {β γ : Type} (f : γ → β) (L : List γ) :
    base_types (L.map (fun Q => some (f Q))) = some (L.map f) := by
  induction L with
  | nil => rfl
  | cons Q Qs ih => simp [base_types, ih]

theorem cls_bases_eq (self : τ) (L : List α) :
    cls_bases self L
      = L.map (fun Q => some (Ty.inst Q [Ty.obj self (Q :: remove_first_occurrence Q L)])) := by
  simp [cls_bases, reorder_as_first_policy_eq]

theorem cls_cons_of_nodup (self : τ) (P : α) (R : List α) (h : (P :: R).Nodup) :
    cls self (P :: R)
      = some (ClsDecl.mk
          ((P :: R).map
            (fun Q => Ty.inst Q [Ty.obj self (Q :: remove_first_occurrence Q (P :: R))]))
          (Ty.inst P [Ty.obj self (P :: R)])) := by
  unfold cls
  rw [cls_bases_eq, base_types_map_some, cls_friend_cons]
  simp only
  rw [if_pos ((nodup_map_inst_iff self (P :: R)).2 h)]

theorem cls_of_not_nodup (self : τ) (L : List α) (h : ¬ L.Nodup) : cls self L = none := by
  unfold cls
  rw [cls_bases_eq, base_types_map_some]
  cases hf : cls_friend self L with
  | none => rfl
  | some F =>
    simp only
    rw [if_neg (fun c => h ((nodup_map_inst_iff self L).1 c))]

theorem cls_isSome_iff (self : τ) (L : List α) :
    (cls self L).isSome = true ↔ L ≠ [] ∧ L.Nodup := by
  cases L with
  | nil => simp [cls, cls_bases, cls_friend, base_types, first_policy]
  | cons P R =>
    by_cases h : (P :: R).Nodup
    · simp [cls_cons_of_nodup self P R h, h]
    · simp [cls_of_not_nodup self _ h, h]

theorem nodup_cons_remove_first_occurrence {P : α} {L : List α} (h : L.Nodup) :
    (P :: remove_first_occurrence P L).Nodup := by
  rw [remove_first_occurrence_eq_erase]
  exact List.nodup_cons.2 ⟨fun m => (h.mem_erase_iff.1 m).1 rfl, h.erase P⟩

end Lemmas

/-! ## The claims -/

section Claims

variable [DecidableEq τ] [DecidableEq α]

/-- C1: for every policy `P` and every policy list `L`, the list inside
`reorder_as_first_policy_t<P<T<L...>>>` has `P` as its first element, and
`first_policy` over that list (each policy instantiated with any type arguments)
yields the instantiation of `P`; `L` need not contain `P`, and the non-emptiness
of `L` is not needed. -/
theorem first_policy_of_reorder_as_first_policy (P : α) (T : τ) (L : List α)
    (args : α → List (Ty τ α)) :
    ∃ L' : List α,
      reorder_as_first_policy (Ty.inst P [Ty.obj T L]) = some (Ty.inst P [Ty.obj T L'])
        ∧ L'.head? = some P
        ∧ first_policy (L'.map (fun Q => Ty.inst Q (args Q))) = some (Ty.inst P (args P)) :=
  ⟨P :: remove_first_occurrence P L, reorder_as_first_policy_eq P T L, rfl, rfl⟩

/-- C2: `erase`, as implemented by its three specialisations, equals the
reference "remove the first occurrence of `P` from `L`".  Spelled out: when the
first `P` sits after a prefix without `P` (every such prefix is `A` filtered by
`≠ P`), the result is that prefix followed by everything after that `P`, later
occurrences of `P` included; and a list without `P` is returned as it is. -/
theorem erase_eq_remove_first_occurrence (P : α) (args : List (Ty τ α)) (T : τ)
    (L : List α) :
    erase (Ty.inst P args) (Ty.obj T L) = some (Ty.obj T (remove_first_occurrence P L))
      ∧ (∀ A B : List α,
          erase (Ty.inst P args) (Ty.obj T (A.filter (fun Q => decide (Q ≠ P)) ++ P :: B))
            = some (Ty.obj T (A.filter (fun Q => decide (Q ≠ P)) ++ B)))
      ∧ erase (Ty.inst P args) (Ty.obj T (L.filter (fun Q => decide (Q ≠ P))))
          = some (Ty.obj T (L.filter (fun Q => decide (Q ≠ P)))) := by
  refine ⟨erase_eq P args T L, fun A B => ?_, ?_⟩
  · rw [erase_eq, remove_first_occurrence_append_cons _ _ (not_mem_filter_ne P A)]
  · rw [erase_eq, remove_first_occurrence_of_not_mem (not_mem_filter_ne P L)]

/-- C3: `reorder_as_first_policy_t<P<T<L...>>>` is `P` applied to
`append_t<P<...>, erase_t<P<...>, T<L...>>>`, both of which exist, and the appended
list is `P` followed by `L` with the first occurrence of `P` removed. -/
theorem reorder_as_first_policy_eq_append_erase (P : α) (T : τ) (L : List α) :
    ∃ E A : Ty τ α,
      erase (Ty.inst P [Ty.obj T L]) (Ty.obj T L) = some E
        ∧ append (Ty.inst P [Ty.obj T L]) E = some A
        ∧ reorder_as_first_policy (Ty.inst P [Ty.obj T L]) = some (Ty.inst P [A])
        ∧ A = Ty.obj T (P :: remove_first_occurrence P L) :=
  ⟨Ty.obj T (remove_first_occurrence P L), Ty.obj T (P :: remove_first_occurrence P L),
    erase_eq P _ T L, rfl, reorder_as_first_policy_eq P T L, rfl⟩

/-- C4, as stated, fails: reordering the policy `0` of the list `[1]`, which does
not contain it, gives the list `[0, 1]`, whose set of policies differs from that
of `[1]`. -/
theorem reorder_as_first_policy_adds_absent_policy :
    reorder_as_first_policy (Ty.inst 0 [Ty.obj 0 [1]] : Ty Nat Nat)
        = some (Ty.inst 0 [Ty.obj 0 [0, 1]])
      ∧ ¬ ∀ L' : List Nat,
          reorder_as_first_policy (Ty.inst 0 [Ty.obj 0 [1]] : Ty Nat Nat)
              = some (Ty.inst 0 [Ty.obj 0 L'])
            → ∀ Q, Q ∈ L' ↔ Q ∈ [1] := by
  have e : reorder_as_first_policy (Ty.inst 0 [Ty.obj 0 [1]] : Ty Nat Nat)
      = some (Ty.inst 0 [Ty.obj 0 [0, 1]]) := by
    simp [reorder_as_first_policy, erase, eraseFrom, append]
  refine ⟨e, fun h => ?_⟩
  have h0 := (h [0, 1] e 0).1 (by simp)
  simp at h0

/-- C4, amended: for every policy list `L` and every policy `P` that occurs in
`L`, the list inside `reorder_as_first_policy_t<P<T<L...>>>` has exactly the same
set of policies as `L`. -/
theorem reorder_as_first_policy_same_set (P : α) (T : τ) (L : List α) (h : P ∈ L) :
    ∃ L' : List α,
      reorder_as_first_policy (Ty.inst P [Ty.obj T L]) = some (Ty.inst P [Ty.obj T L'])
        ∧ ∀ Q, Q ∈ L' ↔ Q ∈ L := by
  refine ⟨P :: remove_first_occurrence P L, reorder_as_first_policy_eq P T L, fun Q => ?_⟩
  rw [remove_first_occurrence_eq_erase]
  exact (List.perm_cons_erase h).mem_iff.symm

/-- Witness of C4 (amended) at the policy `2` of the list `[1, 2, 3]`. -/
theorem reorder_as_first_policy_same_set_witness :
    (2 : Nat) ∈ [1, 2, 3]
      ∧ ∃ L' : List Nat,
          reorder_as_first_policy (Ty.inst 2 [Ty.obj 0 [1, 2, 3]] : Ty Nat Nat)
              = some (Ty.inst 2 [Ty.obj 0 L'])
            ∧ ∀ Q, Q ∈ L' ↔ Q ∈ [1, 2, 3] :=
  ⟨by decide, reorder_as_first_policy_same_set 2 0 [1, 2, 3] (by decide)⟩

/-- C5, as stated, fails: the policy `0` occurs in the list `[0, 0]`, and erasing
it gives `[0]`, which still contains it. -/
theorem erase_keeps_second_occurrence :
    (0 : Nat) ∈ [0, 0]
      ∧ erase (Ty.inst 0 [] : Ty Nat Nat) (Ty.obj 0 [0, 0]) = some (Ty.obj 0 [0])
      ∧ ¬ ∀ L' : List Nat,
          erase (Ty.inst 0 [] : Ty Nat Nat) (Ty.obj 0 [0, 0]) = some (Ty.obj 0 L')
            → 0 ∉ L' := by
  have e : erase (Ty.inst 0 [] : Ty Nat Nat) (Ty.obj 0 [0, 0]) = some (Ty.obj 0 [0]) := by
    simp [erase, eraseFrom]
  exact ⟨by decide, e, fun h => h [0] e (by simp)⟩

/-- C5, amended: for every policy list `L` in which the policy `P` occurs exactly
once (so for every duplicate-free `L` that contains `P`), the list of
`erase_t<P<...>, T<L...>>` contains no occurrence of `P`. -/
theorem erase_not_mem_of_count_eq_one (P : α) (args : List (Ty τ α)) (T : τ) (L : List α)
    (h : L.count P = 1) :
    ∃ L' : List α, erase (Ty.inst P args) (Ty.obj T L) = some (Ty.obj T L') ∧ P ∉ L' := by
  refine ⟨remove_first_occurrence P L, erase_eq P args T L, ?_⟩
  rw [remove_first_occurrence_eq_erase, ← List.count_eq_zero, List.count_erase_self, h]

/-- Witness of C5 (amended) at the policy `2` of the list `[1, 2, 3]`. -/
theorem erase_not_mem_of_count_eq_one_witness :
    [1, 2, 3].count 2 = 1
      ∧ ∃ L' : List Nat,
          erase (Ty.inst 2 [] : Ty Nat Nat) (Ty.obj 0 [1, 2, 3]) = some (Ty.obj 0 L')
            ∧ 2 ∉ L' :=
  ⟨by decide, erase_not_mem_of_count_eq_one 2 [] 0 [1, 2, 3] (by decide)⟩

/-- C6: for every policy list `L` and every policy `P` that occurs in `L`, the list
of `erase_t<P<...>, T<L...>>` has length `len(L) - 1`. -/
theorem erase_length_of_mem (P : α) (args : List (Ty τ α)) (T : τ) (L : List α)
    (h : P ∈ L) :
    ∃ L' : List α,
      erase (Ty.inst P args) (Ty.obj T L) = some (Ty.obj T L')
        ∧ L'.length = L.length - 1 := by
  refine ⟨remove_first_occurrence P L, erase_eq P args T L, ?_⟩
  rw [remove_first_occurrence_eq_erase, List.length_erase_of_mem h]

/-- Witness of C6 at the policy `3` of the list `[1, 3, 2, 3]`. -/
theorem erase_length_of_mem_witness :
    (3 : Nat) ∈ [1, 3, 2, 3]
      ∧ ∃ L' : List Nat,
          erase (Ty.inst 3 [] : Ty Nat Nat) (Ty.obj 0 [1, 3, 2, 3]) = some (Ty.obj 0 L')
            ∧ L'.length = [1, 3, 2, 3].length - 1 :=
  ⟨by decide, erase_length_of_mem 3 [] 0 [1, 3, 2, 3] (by decide)⟩

/-- C7: for every policy list `L`, the empty one included, and every policy `P`
that does not occur in `L`, `erase_t<P<...>, T<L...>>` exists and is `T<L...>`
unchanged; and `erase` of any policy from `L` has a result. -/
theorem erase_absent_policy (P : α) (args : List (Ty τ α)) (T : τ) (L : List α)
    (h : P ∉ L) :
    erase (Ty.inst P args) (Ty.obj T L) = some (Ty.obj T L)
      ∧ ∀ (Q : α) (qargs : List (Ty τ α)),
          (erase (Ty.inst Q qargs) (Ty.obj T L)).isSome = true := by
  refine ⟨?_, fun Q qargs => ?_⟩
  · rw [erase_eq, remove_first_occurrence_of_not_mem h]
  · rw [erase_eq]; rfl

/-- Witness of C7 at the policy `2`, absent from the empty list and from `[1, 3]`. -/
theorem erase_absent_policy_witness :
    ((2 : Nat) ∉ ([] : List Nat) ∧ (2 : Nat) ∉ [1, 3])
      ∧ erase (Ty.inst 2 [] : Ty Nat Nat) (Ty.obj 0 []) = some (Ty.obj 0 [])
      ∧ erase (Ty.inst 2 [] : Ty Nat Nat) (Ty.obj 0 [1, 3]) = some (Ty.obj 0 [1, 3]) :=
  ⟨⟨by decide, by decide⟩, (erase_absent_policy 2 [] 0 [] (by decide)).1,
    (erase_absent_policy 2 [] 0 [1, 3] (by decide)).1⟩

/-- C8: `reorder_as_first_policy` is idempotent: its result on `P<T<L...>>` is
again an argument it accepts, and it maps that result to itself. -/
theorem reorder_as_first_policy_idempotent (P : α) (T : τ) (L : List α) :
    ∃ R : Ty τ α,
      reorder_as_first_policy (Ty.inst P [Ty.obj T L]) = some R
        ∧ reorder_as_first_policy R = some R := by
  refine ⟨_, reorder_as_first_policy_eq P T L, ?_⟩
  rw [reorder_as_first_policy_eq, remove_first_occurrence_cons_self]

end Claims

/-- C9: over a policy list `L` (instantiated policies), `first_policy` yields the
head element whenever `L` is non-empty, and has no result exactly when `L` is
empty. -/
theorem first_policy_instantiate (L : List (α × List (Ty τ α))) :
    first_policy (instantiate L) = (instantiate L).head?
      ∧ (first_policy (instantiate L) = none ↔ L = []) := by
  cases L with
  | nil => exact ⟨rfl, by simp [instantiate, first_policy]⟩
  | cons p Ps => exact ⟨rfl, by simp [instantiate, first_policy]⟩

/-- C10: `append_t<P<...>, T<L...>>` is the list whose first element is `P` and
whose remaining elements are exactly `L`, of length `len(L) + 1`, for every `P`
and `L` (nothing depends on whether `P` occurs in `L`). -/
theorem append_policy_object [DecidableEq τ] (P : α) (args : List (Ty τ α)) (T : τ) (L : List α) :
    ∃ L' : List α,
      append (Ty.inst P args) (Ty.obj T L) = some (Ty.obj T L')
        ∧ L'.head? = some P ∧ L'.tail = L ∧ L'.length = L.length + 1 :=
  ⟨P :: L, rfl, rfl, rfl, rfl⟩

/-- C11: for all policy lists `A` and `B`, `append_t<T<A...>, T<B...>>` is
`T<A..., B...>`: the elements of `A` in their order followed by the elements of
`B` in theirs. -/
theorem append_object_object [DecidableEq τ] (T : τ) (A B : List α) :
    append (Ty.obj T A) (Ty.obj T B) = some (Ty.obj T (A ++ B) : Ty τ α) := by
  simp [append]

section MoreClaims

variable [DecidableEq τ] [DecidableEq α]

/-- C12, as stated, fails: `[0]` is duplicate-free, yet prepending the policy `0`
to it, and concatenating it with itself, both give `[0, 0]`, which is not. -/
theorem append_breaks_nodup :
    [0].Nodup
      ∧ append (Ty.inst 0 [] : Ty Nat Nat) (Ty.obj 0 [0]) = some (Ty.obj 0 [0, 0])
      ∧ append (Ty.obj 0 [0] : Ty Nat Nat) (Ty.obj 0 [0]) = some (Ty.obj 0 [0, 0])
      ∧ ¬ [0, 0].Nodup := by
  refine ⟨by decide, rfl, by simp [append], by decide⟩

/-- C12, amended: for duplicate-free lists `L` and `M` and every policy `P`, the
lists of `erase_t<P<...>, T<L...>>` and of `reorder_as_first_policy_t<P<T<L...>>>`
are duplicate-free; the list of `append_t<P<...>, T<L...>>` is duplicate-free
exactly when `P` does not occur in `L`, and the list of
`append_t<T<L...>, T<M...>>` exactly when `L` and `M` have no policy in common. -/
theorem nodup_of_operations (P : α) (args : List (Ty τ α)) (T : τ) (L M : List α)
    (hL : L.Nodup) (hM : M.Nodup) :
    (∃ E : List α, erase (Ty.inst P args) (Ty.obj T L) = some (Ty.obj T E) ∧ E.Nodup)
      ∧ (∃ R : List α,
          reorder_as_first_policy (Ty.inst P [Ty.obj T L]) = some (Ty.inst P [Ty.obj T R])
            ∧ R.Nodup)
      ∧ (∃ A : List α,
          append (Ty.inst P args) (Ty.obj T L) = some (Ty.obj T A) ∧ (A.Nodup ↔ P ∉ L))
      ∧ (∃ C : List α,
          append (Ty.obj T L) (Ty.obj T M) = some (Ty.obj T C : Ty τ α)
            ∧ (C.Nodup ↔ L.Disjoint M)) := by
  have hE : (remove_first_occurrence P L).Nodup := by
    rw [remove_first_occurrence_eq_erase]; exact hL.erase P
  have hP : P ∉ remove_first_occurrence P L := by
    rw [remove_first_occurrence_eq_erase]; exact fun m => (hL.mem_erase_iff.1 m).1 rfl
  refine ⟨⟨_, erase_eq P args T L, hE⟩, ⟨_, reorder_as_first_policy_eq P T L, ?_⟩,
    ⟨P :: L, rfl, ?_⟩, ⟨L ++ M, by simp [append], ?_⟩⟩
  · exact List.nodup_cons.2 ⟨hP, hE⟩
  · simp [List.nodup_cons, hL]
  · simp [List.nodup_append, hL, hM]

/-- Witness of C12 (amended) at the policy `2` and the lists `[1, 2, 3]` and `[4]`. -/
theorem nodup_of_operations_witness :
    ([1, 2, 3].Nodup ∧ [4].Nodup)
      ∧ (∃ E : List Nat,
          erase (Ty.inst 2 [] : Ty Nat Nat) (Ty.obj 0 [1, 2, 3]) = some (Ty.obj 0 E) ∧ E.Nodup)
      ∧ (∃ R : List Nat,
          reorder_as_first_policy (Ty.inst 2 [Ty.obj 0 [1, 2, 3]] : Ty Nat Nat)
              = some (Ty.inst 2 [Ty.obj 0 R])
            ∧ R.Nodup)
      ∧ (∃ A : List Nat,
          append (Ty.inst 2 [] : Ty Nat Nat) (Ty.obj 0 [1, 2, 3]) = some (Ty.obj 0 A)
            ∧ (A.Nodup ↔ 2 ∉ [1, 2, 3]))
      ∧ (∃ C : List Nat,
          append (Ty.obj 0 [1, 2, 3]) (Ty.obj 0 [4]) = some (Ty.obj 0 C : Ty Nat Nat)
            ∧ (C.Nodup ↔ [1, 2, 3].Disjoint [4])) :=
  ⟨⟨by decide, by decide⟩,
    nodup_of_operations 2 ([] : List (Ty Nat Nat)) 0 [1, 2, 3] [4] (by decide) (by decide)⟩

/-- C13: for every non-empty duplicate-free policy list `L`, the friend of
`cls<L...>` is the first policy of `L` instantiated with `cls<L...>`, every policy
of `L` gives a base class, and the base class at position `i` is that friend
exactly when `i = 0`: the base generated for the first policy is the friend and
the base generated for every other policy is a different type. -/
theorem cls_friend_is_first_base_only (self : τ) (L : List α) (hne : L ≠ [])
    (hnd : L.Nodup) :
    ∃ F : Ty τ α,
      cls_friend self L = some F
        ∧ F = Ty.inst (L.head hne) [Ty.obj self L]
        ∧ reorder_as_first_policy (Ty.inst (L.head hne) [Ty.obj self L]) = some F
        ∧ (∀ B ∈ cls_bases self L, B.isSome = true)
        ∧ ∀ i : Nat, (cls_bases self L)[i]? = some (some F) ↔ i = 0 := by
  cases L with
  | nil => exact absurd rfl hne
  | cons P R =>
    have hP : P ∉ R := (List.nodup_cons.1 hnd).1
    have h0 : reorder_as_first_policy (Ty.inst P [Ty.obj self (P :: R)])
        = some (Ty.inst P [Ty.obj self (P :: R)]) := by
      rw [reorder_as_first_policy_eq, remove_first_occurrence_cons_self]
    refine ⟨Ty.inst P [Ty.obj self (P :: R)], rfl, rfl, h0, ?_, fun i => ?_⟩
    · intro B hB
      obtain ⟨Q, -, rfl⟩ := List.mem_map.1 hB
      rw [reorder_as_first_policy_eq]; rfl
    · cases i with
      | zero => simp [cls_bases, h0]
      | succ j =>
        simp only [cls_bases, List.map_cons, List.getElem?_cons_succ, List.getElem?_map]
        constructor
        · intro h
          cases hj : R[j]? with
          | none => rw [hj] at h; simp at h
          | some Q =>
            rw [hj] at h
            simp only [Option.map_some', reorder_as_first_policy_eq, Option.some.injEq,
              Ty.inst.injEq] at h
            exact absurd (List.getElem?_mem hj) (h.1 ▸ hP)
        · intro h
          exact absurd h (Nat.succ_ne_zero j)

/-- Witness of C13 at the list of `main`, `[Print, Arithmetic, Comparison]`
numbered `[0, 1, 2]`. -/
theorem cls_friend_is_first_base_only_witness :
    ([0, 1, 2] ≠ [] ∧ [0, 1, 2].Nodup)
      ∧ ∃ F : Ty Nat Nat,
          cls_friend 0 [0, 1, 2] = some F
            ∧ F = Ty.inst 0 [Ty.obj 0 [0, 1, 2]]
            ∧ ∀ i : Nat, (cls_bases 0 [0, 1, 2])[i]? = some (some F) ↔ i = 0 :=
  match cls_friend_is_first_base_only (0 : Nat) ([0, 1, 2] : List Nat)
    (by decide) (by decide) with
  | ⟨F, h1, h2, _, _, h5⟩ => ⟨⟨by decide, by decide⟩, F, h1, h2, h5⟩

/-- C14: for every policy list `L` and every policy `P` that does not occur in
`L`, the list inside `reorder_as_first_policy_t<P<T<L...>>>` is `P` prepended to
the whole of `L`, of length `len(L) + 1`. -/
theorem reorder_as_first_policy_of_absent (P : α) (T : τ) (L : List α) (h : P ∉ L) :
    reorder_as_first_policy (Ty.inst P [Ty.obj T L]) = some (Ty.inst P [Ty.obj T (P :: L)])
      ∧ (P :: L).length = L.length + 1 := by
  rw [reorder_as_first_policy_eq, remove_first_occurrence_of_not_mem h]
  exact ⟨rfl, rfl⟩

/-- Witness of C14 at the policy `7`, absent from the list `[1, 2, 3]`. -/
theorem reorder_as_first_policy_of_absent_witness :
    (7 : Nat) ∉ [1, 2, 3]
      ∧ reorder_as_first_policy (Ty.inst 7 [Ty.obj 0 [1, 2, 3]] : Ty Nat Nat)
          = some (Ty.inst 7 [Ty.obj 0 [7, 1, 2, 3]]) :=
  ⟨by decide, (reorder_as_first_policy_of_absent 7 0 [1, 2, 3] (by decide)).1⟩

/-- C15: for every policy `P` and every policy list `R`, reordering a policy that
is already first changes nothing: `reorder_as_first_policy_t<P<T<P, R...>>>` is
`P<T<P, R...>>`. -/
theorem reorder_as_first_policy_of_first (P : α) (T : τ) (R : List α) :
    reorder_as_first_policy (Ty.inst P [Ty.obj T (P :: R)])
      = some (Ty.inst P [Ty.obj T (P :: R)]) := by
  rw [reorder_as_first_policy_eq, remove_first_occurrence_cons_self]

/-- C17, as stated, fails: the policy `0` occurs in the list `[0, 0]`, but
`cls<0, 0>` names the type `0<cls<0, 0>>` twice as direct base and is ill-formed,
so there is no class whose base for `0` could be the friend of anything. -/
theorem cls_of_repeated_policy :
    (0 : Nat) ∈ [0, 0]
      ∧ cls_bases (0 : Nat) ([0, 0] : List Nat)
          = [some (Ty.inst 0 [Ty.obj 0 [0, 0]]), some (Ty.inst 0 [Ty.obj 0 [0, 0]])]
      ∧ cls (0 : Nat) ([0, 0] : List Nat) = none
      ∧ ¬ ∃ C : ClsDecl Nat Nat,
          cls (0 : Nat) ([0, 0] : List Nat) = some C
            ∧ Ty.inst 0 [Ty.obj 0 [0, 0]] ∈ C.bases := by
  have e : cls (0 : Nat) ([0, 0] : List Nat) = none := by rfl
  refine ⟨by decide, ?_, e, ?_⟩
  · simp [cls_bases_eq, remove_first_occurrence_cons_self]
  · rintro ⟨C, hC, -⟩
    rw [e] at hC
    exact Option.noConfusion hC

/-- C17, amended: for every duplicate-free policy list `L` and every policy `P`
occurring in `L`, `cls<L...>` is a class and its base at each position of `P` is
`P<cls<M...>>`, the result of `reorder_as_first_policy`, with `M` the list `P`
followed by `L` without `P`; `cls<M...>` is a class too, that type is the friend
it declares, and it is the first of its base classes. -/
theorem cls_base_is_friend_of_reordered (self : τ) (L : List α) (P : α) (h : P ∈ L)
    (hnd : L.Nodup) :
    ∃ (M : List α) (C CM : ClsDecl τ α),
      M = P :: remove_first_occurrence P L
        ∧ reorder_as_first_policy (Ty.inst P [Ty.obj self L])
            = some (Ty.inst P [Ty.obj self M])
        ∧ cls self L = some C
        ∧ C.bases.length = L.length
        ∧ (∀ i : Nat, L[i]? = some P → C.bases[i]? = some (Ty.inst P [Ty.obj self M]))
        ∧ Ty.inst P [Ty.obj self M] ∈ C.bases
        ∧ cls self M = some CM
        ∧ CM.friend_type = Ty.inst P [Ty.obj self M]
        ∧ CM.bases[0]? = some (Ty.inst P [Ty.obj self M]) := by
  cases L with
  | nil => exact absurd h (List.not_mem_nil P)
  | cons F R =>
    have hM := nodup_cons_remove_first_occurrence (P := P) hnd
    refine ⟨_, _, _, rfl, reorder_as_first_policy_eq P self (F :: R),
      cls_cons_of_nodup self F R hnd, by simp, fun i hi => ?_, ?_,
      cls_cons_of_nodup self P _ hM, ?_, ?_⟩
    · simp only [List.getElem?_map, hi, Option.map_some']
    · exact List.mem_map.2 ⟨P, h, rfl⟩
    · simp only [remove_first_occurrence_cons_self]
    · simp only [List.map_cons, List.getElem?_cons_zero, remove_first_occurrence_cons_self]

/-- Witness of C17 (amended) at the second policy of the list of `main`,
`[Print, Arithmetic, Comparison]` numbered `[0, 1, 2]`: the base of `cls<0, 1, 2>`
for `1` is `1<cls<1, 0, 2>>`, the friend of `cls<1, 0, 2>`. -/
theorem cls_base_is_friend_of_reordered_witness :
    ((1 : Nat) ∈ [0, 1, 2] ∧ [0, 1, 2].Nodup)
      ∧ ∃ (M : List Nat) (C CM : ClsDecl Nat Nat),
          M = [1, 0, 2]
            ∧ cls (0 : Nat) [0, 1, 2] = some C
            ∧ C.bases[1]? = some (Ty.inst 1 [Ty.obj 0 M])
            ∧ cls (0 : Nat) M = some CM
            ∧ CM.friend_type = Ty.inst 1 [Ty.obj 0 M]
            ∧ CM.bases[0]? = some (Ty.inst 1 [Ty.obj 0 M]) :=
  match cls_base_is_friend_of_reordered (0 : Nat) ([0, 1, 2] : List Nat) 1
    (by decide) (by decide) with
  | ⟨M, C, CM, h1, _, h3, _, h5, _, h7, h8, h9⟩ =>
    ⟨⟨by decide, by decide⟩, M, C, CM, by rw [h1]; decide, h3, h5 1 rfl, h7, h8, h9⟩

/-- C18: for every policy list `L` and every policy `P` occurring in `L`, the list
inside `reorder_as_first_policy_t<P<T<L...>>>` is a permutation of `L`: same
length, same multiplicity of every policy, and duplicate-free whenever `L` is. -/
theorem reorder_as_first_policy_perm (P : α) (T : τ) (L : List α) (h : P ∈ L) :
    ∃ M : List α,
      reorder_as_first_policy (Ty.inst P [Ty.obj T L]) = some (Ty.inst P [Ty.obj T M])
        ∧ M.Perm L
        ∧ M.length = L.length
        ∧ (∀ Q : α, M.count Q = L.count Q)
        ∧ (L.Nodup → M.Nodup) := by
  have hp : (P :: remove_first_occurrence P L).Perm L := by
    rw [remove_first_occurrence_eq_erase]; exact (List.perm_cons_erase h).symm
  exact ⟨_, reorder_as_first_policy_eq P T L, hp, hp.length_eq, fun Q => hp.count_eq Q,
    fun hn => hp.nodup_iff.2 hn⟩

/-- Witness of C18 at the policy `3` of the list `[1, 3, 2, 3]`. -/
theorem reorder_as_first_policy_perm_witness :
    (3 : Nat) ∈ [1, 3, 2, 3]
      ∧ ∃ M : List Nat,
          reorder_as_first_policy (Ty.inst 3 [Ty.obj 0 [1, 3, 2, 3]] : Ty Nat Nat)
              = some (Ty.inst 3 [Ty.obj 0 M])
            ∧ M.Perm [1, 3, 2, 3] ∧ M.length = [1, 3, 2, 3].length :=
  match reorder_as_first_policy_perm 3 (0 : Nat) ([1, 3, 2, 3] : List Nat) (by decide) with
  | ⟨M, h1, h2, h3, _, _⟩ => ⟨by decide, M, h1, h2, h3⟩

/-- C19: for every policy list `L` and every policy `P`, present in `L` or not,
erasing undoes prepending: `append_t<P<...>, T<L...>>` exists and
`erase_t<P<...>, ...>` of it is `T<L...>`. -/
theorem erase_undoes_append (P : α) (args : List (Ty τ α)) (T : τ) (L : List α) :
    ∃ A : Ty τ α,
      append (Ty.inst P args) (Ty.obj T L) = some A
        ∧ erase (Ty.inst P args) A = some (Ty.obj T L) := by
  refine ⟨Ty.obj T (P :: L), rfl, ?_⟩
  rw [erase_eq, remove_first_occurrence_cons_self]

end MoreClaims

/-- C16: for every composed object with state `x` and every increment `v` whose
sum `x + v` is representable as an `int`, `operator+=(v)` of the Arithmetic policy
has a defined result in which the state is `x + v`, and `operator==(w)` of the
Comparison policy then returns true exactly when `w` is `x + v`. -/
theorem add_assign_then_eq (x v w : Int) (h : INT_MIN ≤ x + v ∧ x + v ≤ INT_MAX) :
    ∃ c : Cls,
      ArithmeticPolicy.add_assign (Cls.mk x) v = some c
        ∧ c.x = x + v
        ∧ (ComparisonPolicy.eq c w = true ↔ w = x + v) := by
  refine ⟨Cls.mk (x + v), by simp [ArithmeticPolicy.add_assign, h], rfl, ?_⟩
  simp [ComparisonPolicy.eq, eq_comm]

/-- Witness of C16 at the run of `main`: the state `5` incremented by `3` reads
`8`, and the comparison with `8` is true. -/
theorem add_assign_then_eq_witness :
    (INT_MIN ≤ (5 : Int) + 3 ∧ (5 : Int) + 3 ≤ INT_MAX)
      ∧ ∃ c : Cls,
          ArithmeticPolicy.add_assign (Cls.mk 5) 3 = some c
            ∧ c.x = 8
            ∧ ComparisonPolicy.eq c 8 = true :=
  match add_assign_then_eq 5 3 8 (by decide) with
  | ⟨c, h1, h2, h3⟩ => ⟨by decide, c, h1, h2, h3.2 rfl⟩

/-- C20: `append_t<T<L...>, P<...>>`, the list first, is `L` followed by `P` as
last element, while `append_t<P<...>, T<L...>>`, the policy first, is `P` followed
by `L`; the two results are equal exactly when every element of `L` is `P`. -/
theorem append_argument_order [DecidableEq τ] (P : α) (args : List (Ty τ α)) (T : τ) (L : List α) :
    append (Ty.obj T L) (Ty.inst P args) = some (Ty.obj T (L ++ [P]))
      ∧ append (Ty.inst P args) (Ty.obj T L) = some (Ty.obj T (P :: L))
      ∧ (append (Ty.obj T L) (Ty.inst P args) = append (Ty.inst P args) (Ty.obj T L)
          ↔ ∀ Q ∈ L, Q = P) := by
  refine ⟨rfl, rfl, ?_⟩
  simp only [append, Option.some.injEq, Ty.obj.injEq, true_and]
  induction L with
  | nil => simp
  | cons F Fs ih =>
    simp only [List.cons_append, List.cons.injEq, List.mem_cons, forall_eq_or_imp]
    constructor
    · rintro ⟨rfl, h⟩
      exact ⟨rfl, ih.1 h⟩
    · rintro ⟨rfl, h⟩
      exact ⟨rfl, ih.2 h⟩

end VariadicFriendPolicy
